import Mathlib

/-!
Shallow embedding of `inputProcessing.cpp` from the C-Hero-Calc repository.

Strings are modelled as `List Char` (`Str`).  C++ `std::string::find` /
`substr` / `stoi` are modelled by `strFind`, `List.take`/`List.drop` and
`stoi?`.  The constants that live in the (absent) header
(`ARMY_MAX_SIZE`, `TOURNAMENT_LINES`, `REPLAY_EMPTY_SPOT`,
`COMMENT_DELIMITOR`, `TOKEN_SEPARATOR`, `POSITIVE_ANSWER`,
`NEGATIVE_ANSWER`) and the static databases (`quests`, `monsterMap`,
`baseHeroes`, `monsterBaseList`) are passed as parameters.
-/

namespace HeroCalc

/-- Strings are modelled as lists of characters. -/
abbrev Str := List Char

/-- The character class accepted by C `isspace` (what `stoi` skips). -/
def isSpaceCh (c : Char) : Bool :=
  c = ' ' || c = '\t' || c = '\n' || c = '\x0b' || c = '\x0c' || c = '\r'

/-- Search for `sep` in `t` at positions `i, i+1, ...` for `rem` candidate
positions; returns the first position at which `sep` occurs.  Helper for
`strFind`. -/
def strFindGo (t sep : Str) (i : Nat) : Nat → Option Nat
  | 0 => none
  | rem + 1 =>
    if sep.isPrefixOf (t.drop i) then some i else strFindGo t sep (i + 1) rem

/-- Model of C++ `std::string::find(sep, start)`: the least index
`k ≥ start` such that `sep` occurs in `t` at position `k` (`k` may equal
`t.length` only for an empty `sep`); `none` models `npos`. -/
def strFind (t sep : Str) (start : Nat) : Option Nat :=
  strFindGo t sep start (t.length + 1 - start)

/-- Loop body of `split` (inputProcessing.cpp:362-376), with explicit fuel.
Each iteration computes `occurrence = find(separator, start)`, extracts
`substr(start, occurrence - start)`, pushes it when `start == 0` or it is
nonempty, and continues at `occurrence + separator.length`.  For a nonempty
separator the fuel `t.length + 2` chosen by `split` is never exhausted
(`start` strictly increases and stays `≤ t.length`); for an empty separator
the source loops forever, which the model cuts off at fuel exhaustion. -/
def splitGo (t sep : Str) : Nat → Nat → List Str → List Str
  | 0, _, acc => acc
  | fuel + 1, start, acc =>
    match strFind t sep start with
    | none =>
      let substring := t.drop start
      if start = 0 ∨ substring ≠ [] then acc ++ [substring] else acc
    | some occ =>
      let substring := (t.drop start).take (occ - start)
      let acc' := if start = 0 ∨ substring ≠ [] then acc ++ [substring] else acc
      splitGo t sep fuel (occ + sep.length) acc'

/-- Model of `split` (inputProcessing.cpp:362-376). -/
def split (t sep : Str) : List Str :=
  splitGo t sep (t.length + 2) 0 []

/-- Model of `toLower` (inputProcessing.cpp:379-384): per-character
lowercasing. -/
def toLowerStr (s : Str) : Str := s.map Char.toLower

/-- Numeric value of a decimal digit character. -/
def digitVal (c : Char) : Nat := c.toNat - '0'.toNat

/-- Model of C++ `std::stoi` on a string, `none` standing for a thrown
`std::invalid_argument` (no digits) or `std::out_of_range` (outside the
`int` range).  `stoi` skips leading whitespace, consumes an optional sign
and then a maximal run of decimal digits: trailing non-digit characters are
ignored (a partial parse succeeds). -/
def stoi? (s : Str) : Option Int :=
  let s1 := s.dropWhile isSpaceCh
  let signed : Bool × Str :=
    match s1 with
    | '-' :: r => (true, r)
    | '+' :: r => (false, r)
    | _ => (false, s1)
  let ds := signed.2.takeWhile Char.isDigit
  if ds = [] then none
  else
    let mag : Int := (ds.foldl (fun a c => a * 10 + digitVal c) 0 : Nat)
    let v : Int := if signed.1 then -mag else mag
    if v < -(2 ^ 31) ∨ 2 ^ 31 ≤ v then none else some v

/-- A game unit (struct `Monster` from the header, reduced to the fields the
claims touch: `name`, `baseName`, `rarity` with the `NO_HERO` sentinel, and
`level`). -/
structure Monster where
  name : Str
  baseName : Str
  rarity : Nat
  level : Int
deriving DecidableEq

/-- Modelled from the spec: the `rarity` field carries "a sentinel value
`NO_HERO` [that] marks non-hero units"; the sentinel's concrete numeric
value is immaterial, `0` is used. -/
def NO_HERO : Nat := 0

/-- Default monster used for out-of-bounds array reads (which are undefined
behaviour in the source and never occur under the claims' hypotheses). -/
def defaultMonster : Monster :=
  { name := [], baseName := [], rarity := NO_HERO, level := 0 }

/-- The global `monsterReference` vector that leveled heroes are appended
to.  Armies are modelled as lists of `Monster` directly (the source stores
`int8_t` indices into `monsterReference`; the embedding stores the
dereferenced monsters). -/
abbrev Registry := List Monster

/-- An army: ordered sequence of units (the source's fixed array plus
`monsterAmount` count; `Army::add` appends). -/
abbrev Army := List Monster

/-- Modelled from the spec: `addLeveledHero` (declared in the header, not
in `src/`) registers a leveled hero with the hero-creation collaborator:
"a successfully parsed hero token yields a concrete leveled `Monster`
which is also registered ... (idempotent: requesting the same name+level
again must yield an equivalent `Monster`, not a duplicate registration)".
Returns the leveled monster together with the updated registry. -/
def addLeveledHero (reg : Registry) (base : Monster) (lvl : Int) :
    Monster × Registry :=
  let m : Monster :=
    { name := base.baseName, baseName := base.baseName,
      rarity := base.rarity, level := lvl }
  match reg.find? (fun x => decide (x.baseName = m.baseName ∧ x.level = lvl)) with
  | some existing => (existing, reg)
  | none => (m, reg ++ [m])

/-- Model of `parseHeroString` (inputProcessing.cpp:236-247), with `none`
for a thrown exception.  `name = substr(0, find(":"))`,
`level = stoi(substr(find(":") + 1))`; when no separator is present,
`find` yields `npos` and `npos + 1` wraps to `0` in `size_t` arithmetic, so
the level is parsed from the whole string.  The hero registry is scanned in
order and the first base-name match is returned with the parsed level;
otherwise `out_of_range` is thrown. -/
def parseHeroString? (baseHeroes : List Monster) (s : Str) :
    Option (Monster × Int) :=
  let sepPos := strFind s ":".data 0
  let name := match sepPos with
    | some k => s.take k
    | none => s
  let levelStr := match sepPos with
    | some k => s.drop (k + 1)
    | none => s
  match stoi? levelStr with
  | none => none
  | some lvl =>
    match baseHeroes.find? (fun h => decide (h.baseName = name)) with
    | some hero => some (hero, lvl)
    | none => none

/-- Recursion of `makeArmyFromStrings` (inputProcessing.cpp:220-233) over
the monster tokens, threading the hero registry and accumulating the army.
A token containing the hero-level separator `:` is parsed as a hero and the
leveled hero is registered; any other token is looked up in `monsterMap`
(`.at` throws on an unknown name, modelled by `none`). -/
def makeArmyGo (monsterMap : Str → Option Monster) (baseHeroes : List Monster) :
    List Str → Registry → Army → Option (Army × Registry)
  | [], reg, acc => some (acc, reg)
  | tk :: rest, reg, acc =>
    if (strFind tk ":".data 0).isSome then
      match parseHeroString? baseHeroes tk with
      | none => none
      | some (base, lvl) =>
        let r := addLeveledHero reg base lvl
        makeArmyGo monsterMap baseHeroes rest r.2 (acc ++ [r.1])
    else
      match monsterMap tk with
      | none => none
      | some m => makeArmyGo monsterMap baseHeroes rest reg (acc ++ [m])

/-- Model of `makeArmyFromStrings` (inputProcessing.cpp:220-233).  `none`
models a propagated exception (unknown monster name, unknown hero name or
malformed hero level).  In the source a failure thrown mid-loop leaves the
heroes registered by earlier tokens in the global registry; no claim
concerns that effect, so a failing run simply returns `none`. -/
def makeArmyFromStrings (monsterMap : Str → Option Monster)
    (baseHeroes : List Monster) (stringMonsters : List Str) (reg : Registry) :
    Option (Army × Registry) :=
  makeArmyGo monsterMap baseHeroes stringMonsters reg []

/-- An instance to solve (struct `Instance` from the header, reduced to the
fields filled by `makeInstanceFromString`). -/
structure Instance where
  target : Army
  maxCombatants : Int
  targetSize : Nat
deriving DecidableEq

/-- Default instance used only to state list-indexing conclusions. -/
def defaultInstance : Instance :=
  { target := [], maxCombatants := 0, targetSize := 0 }

/-- Model of `makeInstanceFromString` (inputProcessing.cpp:202-217) with
`none` for a propagated exception.  `QUEST_PREFIX = "q"`,
`QUEST_NUMBER_SEPARTOR = "-"` and `ELEMENT_SEPARATOR = ","` are modelled
from the spec's grammar (`instance := questRef | rawLineup`,
`questRef := "Q" questNumber "-" tier`, example `"panda,hero1:5,wolf"`);
the constants themselves live in the absent header.  Details mirrored from
the source: `dashPosition` is `(int) find("-")`, which is `-1` when absent;
the quest number is `substr(1, dashPosition - 1)` (for `dashPosition = -1`
the count wraps to a huge `size_t`, i.e. the rest of the string); the tier
is `substr(dashPosition + 1, 1)` — exactly one character.  Indexing
`quests[questNumber]` out of range is undefined behaviour in the source and
modelled as failure. -/
def makeInstanceFromString? (armyMaxSize : Nat) (quests : List (List Str))
    (monsterMap : Str → Option Monster) (baseHeroes : List Monster)
    (instanceString : Str) (reg : Registry) : Option (Instance × Registry) :=
  let dashPos := strFind instanceString "-".data 0
  if "q".data.isPrefixOf instanceString then
    let questNumberStr := match dashPos with
      | some d => (instanceString.drop 1).take (d - 1)
      | none => instanceString.drop 1
    match stoi? questNumberStr with
    | none => none
    | some n =>
      if h : 0 ≤ n ∧ n.toNat < quests.length then
        match makeArmyFromStrings monsterMap baseHeroes
            (quests.get ⟨n.toNat, h.2⟩) reg with
        | none => none
        | some (army, reg') =>
          let tierStr := match dashPos with
            | some d => (instanceString.drop (d + 1)).take 1
            | none => instanceString.take 1
          match stoi? tierStr with
          | none => none
          | some t =>
            some ({ target := army,
                    maxCombatants := (armyMaxSize : Int) - (t - 1),
                    targetSize := army.length }, reg')
      else none
  else
    match makeArmyFromStrings monsterMap baseHeroes
        (split instanceString ",".data) reg with
    | none => none
    | some (army, reg') =>
      some ({ target := army, maxCombatants := (armyMaxSize : Int),
              targetSize := army.length }, reg')

/-- The `QueryType` enumeration from the header (`question`, `integer`,
`raw`, `rawFirst`). -/
inductive QueryType where
  | question
  | integer
  | raw
  | rawFirst
deriving DecidableEq

/-- The input-relevant state of an `IOManager` session: the
`useMacroFile` flag, the remaining lines of the macro (script) file, and
the lines the interactive channel (`cin`) will deliver.  Console output
(prompt echoing, `showQueries`) is not modelled. -/
structure IOState where
  useMacroFile : Bool
  macroLines : List Str
  cinLines : List Str
deriving DecidableEq

/-- Total number of input lines still available to a session. -/
def linesOf (st : IOState) : Nat :=
  st.macroLines.length + st.cinLines.length

/-- One read step of `getResistantInput` (inputProcessing.cpp:94-106):
if `useMacroFile` is set, try to read a script line, clearing the flag on
end of script; when not (or no longer) in script mode, read one line from
the interactive channel.  `none` models an interactive read that never
completes (both sources exhausted). -/
def readLine (st : IOState) : Option (Str × IOState) :=
  if st.useMacroFile then
    match st.macroLines with
    | l :: rest => some (l, ⟨true, rest, st.cinLines⟩)
    | [] =>
      match st.cinLines with
      | l :: rest => some (l, ⟨false, [], rest⟩)
      | [] => none
  else
    match st.cinLines with
    | l :: rest => some (l, ⟨st.useMacroFile, st.macroLines, rest⟩)
    | [] => none

/-- Normalization of an input line (inputProcessing.cpp:109): lowercase,
then strip everything from the first comment delimiter on. -/
def normalizedLine (commentDelim : Str) (l : Str) : Str :=
  (split (toLowerStr l) commentDelim).headD []

/-- First whitespace-delimited token of the normalized line
(inputProcessing.cpp:110). -/
def normalizedFirstToken (commentDelim tokenSep : Str) (l : Str) : Str :=
  (split (normalizedLine commentDelim l) tokenSep).headD []

/-- Retry loop of `getResistantInput` (inputProcessing.cpp:91-134) with
explicit fuel.  Each iteration consumes exactly one available line, so the
fuel `linesOf st` used by `getResistantInput` is never exhausted while a
line remains.  A line whose first token is `"help"` only prints the help
text and restarts the loop; otherwise the line is validated according to
the query type, an accepted answer is returned, and a rejected one
restarts the loop. -/
def getRIGo (posAnswer negAnswer commentDelim tokenSep : Str)
    (queryType : QueryType) : Nat → IOState → Option (Str × IOState)
  | 0, _ => none
  | fuel + 1, st =>
    match readLine st with
    | none => none
    | some (l, st') =>
      let inputString := normalizedLine commentDelim l
      let firstToken := (split inputString tokenSep).headD []
      if firstToken = "help".data then
        getRIGo posAnswer negAnswer commentDelim tokenSep queryType fuel st'
      else
        match queryType with
        | .question =>
          if firstToken = posAnswer ∨ firstToken = negAnswer then
            some (firstToken, st')
          else getRIGo posAnswer negAnswer commentDelim tokenSep queryType fuel st'
        | .integer =>
          if (stoi? firstToken).isSome then some (firstToken, st')
          else getRIGo posAnswer negAnswer commentDelim tokenSep queryType fuel st'
        | .raw => some (inputString, st')
        | .rawFirst => some (firstToken, st')

/-- Model of `IOManager::getResistantInput` (inputProcessing.cpp:91-134):
resolves one query, returning the accepted answer and the session state
after the call.  `none` models a session that blocks forever waiting for
more input. -/
def getResistantInput (posAnswer negAnswer commentDelim tokenSep : Str)
    (queryType : QueryType) (st : IOState) : Option (Str × IOState) :=
  getRIGo posAnswer negAnswer commentDelim tokenSep queryType (linesOf st) st

/-- Loop of `takeHerolevelInput` (inputProcessing.cpp:155-179) with
explicit fuel (each iteration consumes at least one line through
`getResistantInput`).  The body queries one `rawFirst` answer; an empty
answer increments the blank counter, a non-empty answer resets it and, when
it parses as a hero spec, registers the leveled hero and appends it to the
result; the `do`-`while` condition continues while the answer differs from
`"done"` and the counter is below 2. -/
def takeHeroLoop (posAnswer negAnswer commentDelim tokenSep : Str)
    (baseHeroes : List Monster) :
    Nat → IOState → Registry → List Monster → Nat →
    Option (List Monster × Registry × IOState)
  | 0, _, _, _, _ => none
  | fuel + 1, st, reg, heroes, cancelCounter =>
    match getResistantInput posAnswer negAnswer commentDelim tokenSep
        .rawFirst st with
    | none => none
    | some (input, st') =>
      let step : Nat × List Monster × Registry :=
        if input = [] then (cancelCounter + 1, heroes, reg)
        else
          match parseHeroString? baseHeroes input with
          | some (base, lvl) =>
            let r := addLeveledHero reg base lvl
            (0, heroes ++ [r.1], r.2)
          | none => (0, heroes, reg)
      if input ≠ "done".data ∧ step.1 < 2 then
        takeHeroLoop posAnswer negAnswer commentDelim tokenSep baseHeroes
          fuel st' step.2.2 step.2.1 step.1
      else some (step.2.1, step.2.2, st')

/-- Model of `IOManager::takeHerolevelInput` (inputProcessing.cpp:155-179).
The source returns the registry indices of the collected heroes; the
embedding returns the heroes themselves (same list, dereferenced). -/
def takeHerolevelInput (posAnswer negAnswer commentDelim tokenSep : Str)
    (baseHeroes : List Monster) (st : IOState) (reg : Registry) :
    Option (List Monster × Registry × IOState) :=
  takeHeroLoop posAnswer negAnswer commentDelim tokenSep baseHeroes
    (linesOf st) st reg [] 0

/-- The `for` loop of `takeInstanceInput` (inputProcessing.cpp:192-196):
parse every instance token in order, threading the hero registry; the
first failing token aborts the whole parse (the thrown exception discards
the partially built vector). -/
def parseInstances (armyMaxSize : Nat) (quests : List (List Str))
    (monsterMap : Str → Option Monster) (baseHeroes : List Monster) :
    List Str → Registry → Option (List Instance × Registry)
  | [], reg => some ([], reg)
  | tk :: rest, reg =>
    match makeInstanceFromString? armyMaxSize quests monsterMap baseHeroes
        tk reg with
    | none => none
    | some (inst, reg') =>
      match parseInstances armyMaxSize quests monsterMap baseHeroes rest reg' with
      | none => none
      | some (v, reg'') => some (inst :: v, reg'')

/-- Retry loop of `takeInstanceInput` (inputProcessing.cpp:182-199) with
explicit fuel: read one `raw` line, split it into instance tokens, and
return the parsed instances only if every token parses; otherwise retry
with the next line (the cleared vector never reaches the caller). -/
def takeInstLoop (posAnswer negAnswer commentDelim tokenSep : Str)
    (armyMaxSize : Nat) (quests : List (List Str))
    (monsterMap : Str → Option Monster) (baseHeroes : List Monster) :
    Nat → IOState → Registry → Option (List Instance × Registry × IOState)
  | 0, _, _ => none
  | fuel + 1, st, reg =>
    match getResistantInput posAnswer negAnswer commentDelim tokenSep
        .raw st with
    | none => none
    | some (input, st') =>
      match parseInstances armyMaxSize quests monsterMap baseHeroes
          (split input tokenSep) reg with
      | some (v, reg') => some (v, reg', st')
      | none =>
        takeInstLoop posAnswer negAnswer commentDelim tokenSep armyMaxSize
          quests monsterMap baseHeroes fuel st' reg

/-- Model of `IOManager::takeInstanceInput` (inputProcessing.cpp:182-199). -/
def takeInstanceInput (posAnswer negAnswer commentDelim tokenSep : Str)
    (armyMaxSize : Nat) (quests : List (List Str))
    (monsterMap : Str → Option Monster) (baseHeroes : List Monster)
    (st : IOState) (reg : Registry) :
    Option (List Instance × Registry × IOState) :=
  takeInstLoop posAnswer negAnswer commentDelim tokenSep armyMaxSize quests
    monsterMap baseHeroes (linesOf st) st reg

/-- Conversion of a mathematical integer to the value of the C++ cast
`(int8_t) x` (two's-complement wrap into `[-128, 127]`). -/
def toInt8 (n : Int) : Int := (n + 128) % 256 - 128

/-- The scanning loop shared by both branches of `getReplayMonsterNumber`
(inputProcessing.cpp:287-304): walk the list with a running index, and
each time the predicate matches overwrite the current result with the
encoding of the index (so the last match wins); the initial result is
`REPLAY_EMPTY_SPOT`. -/
def grmnScan (p : Monster → Bool) (enc : Nat → Int) :
    List Monster → Nat → Int → Int
  | [], _, cur => cur
  | x :: xs, i, cur => grmnScan p enc xs (i + 1) (if p x then enc i else cur)

/-- Model of `getReplayMonsterNumber` (inputProcessing.cpp:287-304),
returning the numeric slot id (the source renders it with `to_string`).
Heroes are encoded as `(int8_t) (-i - 2)` for the base-name match at
registry index `i`; other units as `(int8_t) i` for the name match at
index `i` in the canonical monster list. -/
def getReplayMonsterNumber (replayEmptySpot : Int)
    (baseHeroes monsterBaseList : List Monster) (monster : Monster) : Int :=
  if monster.rarity ≠ NO_HERO then
    grmnScan (fun h => decide (h.baseName = monster.baseName))
      (fun i => toInt8 (-(i : Int) - 2)) baseHeroes 0 replayEmptySpot
  else
    grmnScan (fun x => decide (x.name = monster.name))
      (fun i => toInt8 (i : Int)) monsterBaseList 0 replayEmptySpot

/-- The slot ids emitted by `getReplaySetup` (inputProcessing.cpp:268-284)
in order: for slot `i` of the `ARMY_MAX_SIZE * TOURNAMENT_LINES` grid, the
reversed-order unit at `monsterAmount - (i % ARMY_MAX_SIZE) - 1` when
`i % ARMY_MAX_SIZE` is below the unit count, else `REPLAY_EMPTY_SPOT`.
The source renders this list as a bracketed comma-joined string
(`renderIntList`). -/
def getReplaySetupList (armyMaxSize tournamentLines : Nat)
    (replayEmptySpot : Int) (baseHeroes monsterBaseList : List Monster)
    (setup : Army) : List Int :=
  (List.range (armyMaxSize * tournamentLines)).map (fun i =>
    if i % armyMaxSize < setup.length then
      getReplayMonsterNumber replayEmptySpot baseHeroes monsterBaseList
        (setup.getD (setup.length - i % armyMaxSize - 1) defaultMonster)
    else replayEmptySpot)

/-- The hero levels emitted by `getReplayHeroes`
(inputProcessing.cpp:307-328) in order: one entry per hero template, the
level of the first army unit that is a hero with the matching base name
(the inner loop breaks on the first match), else `0`. -/
def getReplayHeroesList (baseHeroes : List Monster) (setup : Army) :
    List Int :=
  baseHeroes.map (fun b =>
    match setup.find? (fun m =>
        decide (m.rarity ≠ NO_HERO ∧ m.baseName = b.baseName)) with
    | some m => m.level
    | none => 0)

/-- Character of a single decimal digit. -/
def digitChar (n : Nat) : Char := Char.ofNat ('0'.toNat + n)

/-- Helper for `natToStr`: peel decimal digits from the right. -/
def natToStrGo : Nat → Nat → Str → Str
  | 0, _, acc => acc
  | fuel + 1, n, acc =>
    if n < 10 then digitChar n :: acc
    else natToStrGo fuel (n / 10) (digitChar (n % 10) :: acc)

/-- Decimal rendering of a natural number. -/
def natToStr (n : Nat) : Str := natToStrGo (n + 1) n []

/-- Model of C++ `to_string` / `operator<<` on an integer. -/
def intToStr (n : Int) : Str :=
  if n < 0 then '-' :: natToStr (-n).toNat else natToStr n.toNat

/-- Comma-joined rendering of a list of integers. -/
def joinCommaInts : List Int → Str
  | [] => []
  | [x] => intToStr x
  | x :: y :: rest => intToStr x ++ ",".data ++ joinCommaInts (y :: rest)

/-- Bracketed comma-joined rendering, as produced by the `stringstream`
loops of `getReplaySetup` and `getReplayHeroes`. -/
def renderIntList (l : List Int) : Str :=
  "[".data ++ joinCommaInts l ++ "]".data

/-- The base64 alphabet. -/
def b64Table : Str :=
  "ABCDEFGHIJKLMNOPQRSTUVWXYZabcdefghijklmnopqrstuvwxyz0123456789+/".data

/-- Character of a 6-bit group. -/
def b64Char (n : Nat) : Char := b64Table.getD n 'A'

/-- Modelled from the spec: `base64_encode` (from the vendored base64
header, not in `src/`) encodes "the raw bytes" of the serialized object
with standard base64 (`=` padding). -/
def b64Encode : List Nat → Str
  | [] => []
  | [a] =>
    [b64Char (a / 4), b64Char (a % 4 * 16), '=', '=']
  | [a, b] =>
    [b64Char (a / 4), b64Char (a % 4 * 16 + b / 16), b64Char (b % 16 * 4), '=']
  | a :: b :: c :: rest =>
    b64Char (a / 4) :: b64Char (a % 4 * 16 + b / 16) ::
      b64Char (b % 16 * 4 + c / 64) :: b64Char (c % 64) :: b64Encode rest

/-- The literal JSON text preceding the timestamp in `makeBattleReplay`
(inputProcessing.cpp:252-256). -/
def replayDatePre : Str :=
  "\x7b\"winner\":\"Unknown\",\"left\":\"Solution\",\"right\":\"Instance\",\"date\":".data

/-- The text following the timestamp in `makeBattleReplay`
(inputProcessing.cpp:257-262): the `title` literal and the four computed
fields, which depend only on the armies and the static databases. -/
def replayTail (armyMaxSize tournamentLines : Nat) (replayEmptySpot : Int)
    (baseHeroes monsterBaseList : List Monster) (friendly hostile : Army) :
    Str :=
  ",\"title\":\"Proposed Solution\",\"setup\":".data ++
    renderIntList (getReplaySetupList armyMaxSize tournamentLines
      replayEmptySpot baseHeroes monsterBaseList friendly) ++
  ",\"shero\":".data ++
    renderIntList (getReplayHeroesList baseHeroes friendly) ++
  ",\"player\":".data ++
    renderIntList (getReplaySetupList armyMaxSize tournamentLines
      replayEmptySpot baseHeroes monsterBaseList hostile) ++
  ",\"phero\":".data ++
    renderIntList (getReplayHeroesList baseHeroes hostile) ++
  "\x7d".data

/-- The unencoded replay object built by `makeBattleReplay`
(inputProcessing.cpp:250-263), with the clock reading `time(NULL)` passed
explicitly as `t`. -/
def unencodedReplay (armyMaxSize tournamentLines : Nat)
    (replayEmptySpot : Int) (baseHeroes monsterBaseList : List Monster)
    (friendly hostile : Army) (t : Int) : Str :=
  replayDatePre ++ intToStr t ++
    replayTail armyMaxSize tournamentLines replayEmptySpot baseHeroes
      monsterBaseList friendly hostile

/-- Model of `makeBattleReplay` (inputProcessing.cpp:250-265): serialize
the object and base64-encode its bytes. -/
def makeBattleReplay (armyMaxSize tournamentLines : Nat)
    (replayEmptySpot : Int) (baseHeroes monsterBaseList : List Monster)
    (friendly hostile : Army) (t : Int) : Str :=
  b64Encode ((unencodedReplay armyMaxSize tournamentLines replayEmptySpot
    baseHeroes monsterBaseList friendly hostile t).map Char.toNat)

/-- Written from the spec's words for claim C1 only: a string "parses
entirely as a base-10 integer (no partial parses — the whole token must be
numeric)": an optional sign followed by one or more decimal digits and
nothing else. -/
def specIsBase10Int (s : Str) : Bool :=
  let body := match s with
    | '-' :: r => r
    | '+' :: r => r
    | _ => s
  decide (body ≠ []) && body.all Char.isDigit

/-- Example ordinary monster used for concrete evaluations. -/
def exPanda : Monster :=
  { name := "panda".data, baseName := "panda".data, rarity := NO_HERO, level := 0 }

/-- Example ordinary monster used for concrete evaluations. -/
def exWolf : Monster :=
  { name := "wolf".data, baseName := "wolf".data, rarity := NO_HERO, level := 0 }

/-- Example hero template (non-`NO_HERO` rarity) used for concrete
evaluations. -/
def exHero1 : Monster :=
  { name := "hero1".data, baseName := "hero1".data, rarity := 1, level := 1 }

/-- Example monster database mapping the two example monster names. -/
def exMonsterMap : Str → Option Monster := fun s =>
  if s = "panda".data then some exPanda
  else if s = "wolf".data then some exWolf
  else none

/-- Example quest database with quest 3 mapping to `["panda", "wolf"]`. -/
def exQuests : List (List Str) :=
  [[], [], [], ["panda".data, "wolf".data]]

/-! Helper lemmas. -/

theorem splitGo_append (t sep : Str) :
    ∀ (fuel start : Nat) (acc : List Str),
      ∃ r, splitGo t sep fuel start acc = acc ++ r := by
  intro fuel
  induction fuel with
  | zero =>
    intro start acc
    exact ⟨[], by simp [splitGo]⟩
  | succ f ih =>
    intro start acc
    simp only [splitGo]
    cases h : strFind t sep start with
    | none =>
      by_cases hc : start = 0 ∨ t.drop start ≠ []
      · exact ⟨[t.drop start], by rw [if_pos hc]⟩
      · exact ⟨[], by rw [if_neg hc]; simp⟩
    | some occ =>
      by_cases hc : start = 0 ∨ (t.drop start).take (occ - start) ≠ []
      · obtain ⟨r, hr⟩ := ih (occ + sep.length)
          (acc ++ [(t.drop start).take (occ - start)])
        refine ⟨[(t.drop start).take (occ - start)] ++ r, ?_⟩
        dsimp only
        rw [if_pos hc, hr]
        simp
      · obtain ⟨r, hr⟩ := ih (occ + sep.length) acc
        refine ⟨r, ?_⟩
        dsimp only
        rw [if_neg hc, hr]

theorem readLine_lines (st : IOState) (l : Str) (st' : IOState)
    (h : readLine st = some (l, st')) : linesOf st = linesOf st' + 1 := by
  obtain ⟨flag, mLines, cLines⟩ := st
  cases flag with
  | false =>
    cases cLines with
    | nil => simp [readLine] at h
    | cons a rest =>
      simp [readLine] at h
      obtain ⟨-, h2⟩ := h
      subst h2
      simp [linesOf]
      omega
  | true =>
    cases mLines with
    | cons a rest =>
      simp [readLine] at h
      obtain ⟨-, h2⟩ := h
      subst h2
      simp [linesOf]
      omega
    | nil =>
      cases cLines with
      | nil => simp [readLine] at h
      | cons a rest =>
        simp [readLine] at h
        obtain ⟨-, h2⟩ := h
        subst h2
        simp [linesOf]

theorem readLine_interactive (st : IOState) (l : Str) (st' : IOState)
    (hpre : st.useMacroFile = false ∨ st.macroLines = [])
    (h : readLine st = some (l, st')) :
    st'.useMacroFile = false ∧ st'.macroLines = st.macroLines ∧
      st'.cinLines.length + 1 = st.cinLines.length := by
  obtain ⟨flag, mLines, cLines⟩ := st
  cases flag with
  | false =>
    cases cLines with
    | nil => simp [readLine] at h
    | cons a rest =>
      simp [readLine] at h
      obtain ⟨-, h2⟩ := h
      subst h2
      simp
  | true =>
    cases mLines with
    | cons a rest =>
      rcases hpre with hpre | hpre <;> simp at hpre
    | nil =>
      cases cLines with
      | nil => simp [readLine] at h
      | cons a rest =>
        simp [readLine] at h
        obtain ⟨-, h2⟩ := h
        subst h2
        simp

theorem getRIGo_interactive (posA negA cd ts : Str) (qt : QueryType) :
    ∀ (fuel : Nat) (st : IOState) (ans : Str) (st' : IOState),
      st.useMacroFile = false ∨ st.macroLines = [] →
      getRIGo posA negA cd ts qt fuel st = some (ans, st') →
      st'.useMacroFile = false ∧ st'.macroLines = st.macroLines ∧
        st'.cinLines.length < st.cinLines.length := by
  intro fuel
  induction fuel with
  | zero =>
    intro st ans st' hpre h
    simp [getRIGo] at h
  | succ f ih =>
    intro st ans st' hpre h
    simp only [getRIGo] at h
    cases hr : readLine st with
    | none => rw [hr] at h; simp at h
    | some p =>
      obtain ⟨l, st1⟩ := p
      rw [hr] at h
      dsimp only at h
      obtain ⟨h1, h2, h3⟩ := readLine_interactive st l st1 hpre hr
      by_cases hh : (split (normalizedLine cd l) ts).headD [] = "help".data
      · rw [if_pos hh] at h
        obtain ⟨g1, g2, g3⟩ := ih st1 ans st' (Or.inl h1) h
        exact ⟨g1, by rw [g2, h2], by omega⟩
      · rw [if_neg hh] at h
        cases qt with
        | question =>
          by_cases ha : (split (normalizedLine cd l) ts).headD [] = posA ∨
              (split (normalizedLine cd l) ts).headD [] = negA
          · rw [if_pos ha] at h
            have hst : st1 = st' := congrArg Prod.snd (Option.some.inj h)
            subst hst
            exact ⟨h1, h2, by omega⟩
          · rw [if_neg ha] at h
            obtain ⟨g1, g2, g3⟩ := ih st1 ans st' (Or.inl h1) h
            exact ⟨g1, by rw [g2, h2], by omega⟩
        | integer =>
          by_cases hs : (stoi? ((split (normalizedLine cd l) ts).headD [])).isSome = true
          · rw [if_pos hs] at h
            have hst : st1 = st' := congrArg Prod.snd (Option.some.inj h)
            subst hst
            exact ⟨h1, h2, by omega⟩
          · rw [if_neg hs] at h
            obtain ⟨g1, g2, g3⟩ := ih st1 ans st' (Or.inl h1) h
            exact ⟨g1, by rw [g2, h2], by omega⟩
        | raw =>
          have hst : st1 = st' := congrArg Prod.snd (Option.some.inj h)
          subst hst
          exact ⟨h1, h2, by omega⟩
        | rawFirst =>
          have hst : st1 = st' := congrArg Prod.snd (Option.some.inj h)
          subst hst
          exact ⟨h1, h2, by omega⟩

theorem getRIGo_integer_stoi (posA negA cd ts : Str) :
    ∀ (fuel : Nat) (st : IOState) (ans : Str) (st' : IOState),
      getRIGo posA negA cd ts .integer fuel st = some (ans, st') →
      (stoi? ans).isSome = true := by
  intro fuel
  induction fuel with
  | zero =>
    intro st ans st' h
    simp [getRIGo] at h
  | succ f ih =>
    intro st ans st' h
    simp only [getRIGo] at h
    cases hr : readLine st with
    | none => rw [hr] at h; simp at h
    | some p =>
      obtain ⟨l, st1⟩ := p
      rw [hr] at h
      dsimp only at h
      by_cases hh : (split (normalizedLine cd l) ts).headD [] = "help".data
      · rw [if_pos hh] at h
        exact ih st1 ans st' h
      · rw [if_neg hh] at h
        by_cases hs : (stoi? ((split (normalizedLine cd l) ts).headD [])).isSome = true
        · rw [if_pos hs] at h
          have hans : (split (normalizedLine cd l) ts).headD [] = ans :=
            congrArg Prod.fst (Option.some.inj h)
          rw [← hans]
          exact hs
        · rw [if_neg hs] at h
          exact ih st1 ans st' h

/-! Claim theorems. -/

theorem splitGo_succ (t sep : Str) (fuel start : Nat) (acc : List Str) :
    splitGo t sep (fuel + 1) start acc =
      match strFind t sep start with
      | none =>
        if start = 0 ∨ t.drop start ≠ [] then acc ++ [t.drop start] else acc
      | some occ =>
        splitGo t sep fuel (occ + sep.length)
          (if start = 0 ∨ (t.drop start).take (occ - start) ≠ [] then
            acc ++ [(t.drop start).take (occ - start)]
          else acc) := rfl

/-- C10: for every input string and every non-empty separator, `split`
returns a non-empty vector whose first element is the prefix of the input
before the first separator occurrence (the whole input when the separator
is absent); hence the `[0]` indexing of `split`'s result during input
normalization in `getResistantInput` is always in bounds. -/
theorem c10_split_first_nonempty (t sep : Str) (hsep : sep ≠ []) :
    split t sep ≠ [] ∧
      (strFind t sep 0 = none → (split t sep).headD [] = t) ∧
      ∀ occ, strFind t sep 0 = some occ →
        (split t sep).headD [] = t.take occ := by
  have e : split t sep = splitGo t sep (t.length + 1 + 1) 0 [] := rfl
  cases h : strFind t sep 0 with
  | none =>
    have hs : split t sep = [t] := by
      rw [e, splitGo_succ, h]
      simp
    refine ⟨by rw [hs]; simp, fun _ => by rw [hs]; simp, fun occ hocc => ?_⟩
    simp at hocc
  | some occ =>
    obtain ⟨r, hr⟩ := splitGo_append t sep (t.length + 1) (occ + sep.length)
      [(t.drop 0).take (occ - 0)]
    have hs : split t sep = t.take occ :: r := by
      rw [e, splitGo_succ, h]
      dsimp only
      rw [if_pos (by simp), List.nil_append, hr]
      simp
    refine ⟨by rw [hs]; simp, fun hn => ?_, fun occ' hocc => ?_⟩
    · simp at hn
    · have heq : occ = occ' := by simpa using hocc
      rw [hs, ← heq]
      simp

/-- Witness for C10 at a concrete input. -/
theorem c10_witness :
    " ".data ≠ ([] : Str) ∧
      (split "a b".data " ".data ≠ [] ∧
        (strFind "a b".data " ".data 0 = none →
          (split "a b".data " ".data).headD [] = "a b".data) ∧
        ∀ occ, strFind "a b".data " ".data 0 = some occ →
          (split "a b".data " ".data).headD [] = "a b".data.take occ) :=
  ⟨by decide, c10_split_first_nonempty ("a b".data) (" ".data) (by decide)⟩

/-- C1 (amended): for `QueryType = integer` the automaton accepts a line
exactly when C++ `stoi` succeeds on its first token — `stoi` parses a
leading optional-sign-and-digits prefix and ignores trailing characters —
and returns that token unparsed, as text; consequently every returned
string is accepted by `stoi` (it has a parseable integer prefix), but it
need not parse entirely as a base-10 integer. -/
theorem c1_integer_answers_stoi_parseable (posA negA cd ts : Str)
    (st : IOState) (ans : Str) (st' : IOState)
    (h : getResistantInput posA negA cd ts .integer st = some (ans, st')) :
    (stoi? ans).isSome = true :=
  getRIGo_integer_stoi posA negA cd ts (linesOf st) st ans st' h

/-- Counterexample to C1 as stated: on the input line `"12abc"` the
`integer` query accepts and returns `"12abc"` (because `stoi` parses the
prefix `12`), yet `"12abc"` does not parse entirely as a base-10
integer. -/
theorem c1_counterexample :
    getResistantInput "y".data "n".data "//".data " ".data .integer
        ⟨false, [], ["12abc".data]⟩ =
      some ("12abc".data, ⟨false, [], []⟩) ∧
    specIsBase10Int "12abc".data = false := by
  decide

/-- Witness for the amended C1 at a concrete input. -/
theorem c1_witness :
    getResistantInput "y".data "n".data "//".data " ".data .integer
        ⟨false, [], ["7".data]⟩ =
      some ("7".data, ⟨false, [], []⟩) ∧
    (stoi? "7".data).isSome = true :=
  ⟨by decide,
    c1_integer_answers_stoi_parseable ("y".data) ("n".data) ("//".data)
      (" ".data) ⟨false, [], ["7".data]⟩ ("7".data) ⟨false, [], []⟩
      (by decide)⟩

/-- C8: whenever the next available line normalizes to first token
`"help"`, the call consumes that line without returning it for any query
type and restarts the same query on the remaining input: the result of the
call equals the result of the call on the state with the help line
consumed. -/
theorem c8_help_never_answers (posA negA cd ts : Str) (qt : QueryType)
    (st : IOState) (l : Str) (st' : IOState)
    (hr : readLine st = some (l, st'))
    (hh : normalizedFirstToken cd ts l = "help".data) :
    getResistantInput posA negA cd ts qt st =
      getResistantInput posA negA cd ts qt st' := by
  have hl := readLine_lines st l st' hr
  unfold getResistantInput
  rw [hl]
  simp only [getRIGo]
  rw [hr]
  dsimp only
  by_cases hh2 : (split (normalizedLine cd l) ts).headD [] = "help".data
  · rw [if_pos hh2]
  · exact absurd hh hh2

/-- Witness for C8 at a concrete input. -/
theorem c8_witness :
    readLine ⟨false, [], ["help please".data, "42".data]⟩ =
        some ("help please".data, ⟨false, [], ["42".data]⟩) ∧
      normalizedFirstToken "//".data " ".data "help please".data =
        "help".data ∧
      getResistantInput "y".data "n".data "//".data " ".data .integer
          ⟨false, [], ["help please".data, "42".data]⟩ =
        getResistantInput "y".data "n".data "//".data " ".data .integer
          ⟨false, [], ["42".data]⟩ :=
  ⟨by decide, by decide,
    c8_help_never_answers ("y".data) ("n".data) ("//".data) (" ".data)
      .integer ⟨false, [], ["help please".data, "42".data]⟩
      ("help please".data) ⟨false, [], ["42".data]⟩ (by decide) (by decide)⟩

/-- C4: once the script is exhausted (or script mode is already off), a
successful call leaves script mode off, leaves the script untouched, and
consumes interactive lines — so script mode is never re-enabled and every
later answer sources from the interactive channel; and, concretely, with a
2-line script and 3 queries the 3rd answer comes from the interactive
channel with script mode disabled. -/
theorem c4_script_exhaustion_permanent :
    (∀ (posA negA cd ts : Str) (qt : QueryType) (st : IOState) (ans : Str)
        (st' : IOState),
        st.useMacroFile = false ∨ st.macroLines = [] →
        getResistantInput posA negA cd ts qt st = some (ans, st') →
        st'.useMacroFile = false ∧ st'.macroLines = st.macroLines ∧
          st'.cinLines.length < st.cinLines.length) ∧
    (getResistantInput "y".data "n".data "//".data " ".data .raw
        ⟨true, ["one".data, "two".data], ["three".data]⟩ =
          some ("one".data, ⟨true, ["two".data], ["three".data]⟩) ∧
      getResistantInput "y".data "n".data "//".data " ".data .raw
        ⟨true, ["two".data], ["three".data]⟩ =
          some ("two".data, ⟨true, [], ["three".data]⟩) ∧
      getResistantInput "y".data "n".data "//".data " ".data .raw
        ⟨true, [], ["three".data]⟩ =
          some ("three".data, ⟨false, [], []⟩)) := by
  constructor
  · intro posA negA cd ts qt st ans st' hpre h
    exact getRIGo_interactive posA negA cd ts qt (linesOf st) st ans st' hpre h
  · exact ⟨by decide, by decide, by decide⟩

/-- Witness for C4's universally quantified part at a concrete input. -/
theorem c4_witness :
    ((⟨false, [], ["x".data]⟩ : IOState).useMacroFile = false ∨
        (⟨false, [], ["x".data]⟩ : IOState).macroLines = []) ∧
      ((⟨false, [], []⟩ : IOState).useMacroFile = false ∧
        (⟨false, [], []⟩ : IOState).macroLines =
          (⟨false, [], ["x".data]⟩ : IOState).macroLines ∧
        (⟨false, [], []⟩ : IOState).cinLines.length <
          (⟨false, [], ["x".data]⟩ : IOState).cinLines.length) :=
  ⟨Or.inl rfl,
    c4_script_exhaustion_permanent.1 ("y".data) ("n".data) ("//".data)
      (" ".data) .rawFirst ⟨false, [], ["x".data]⟩ ("x".data)
      ⟨false, [], []⟩ (Or.inl rfl) (by decide)⟩

/-- C9: for fixed armies and databases the replay token is a deterministic
function of the clock reading, and the unencoded replay text depends on
the clock only through the embedded timestamp: it is a fixed prefix, then
the rendered timestamp, then a fixed suffix determined by the armies and
databases alone. -/
theorem c9_replay_deterministic (armyMaxSize tournamentLines : Nat)
    (replayEmptySpot : Int) (baseHeroes monsterBaseList : List Monster)
    (friendly hostile : Army) (t1 t2 : Int) :
    (t1 = t2 →
      makeBattleReplay armyMaxSize tournamentLines replayEmptySpot baseHeroes
          monsterBaseList friendly hostile t1 =
        makeBattleReplay armyMaxSize tournamentLines replayEmptySpot baseHeroes
          monsterBaseList friendly hostile t2) ∧
    ∃ p q : Str, ∀ t : Int,
      unencodedReplay armyMaxSize tournamentLines replayEmptySpot baseHeroes
          monsterBaseList friendly hostile t = p ++ intToStr t ++ q :=
  ⟨fun heq => by rw [heq],
    ⟨replayDatePre,
      replayTail armyMaxSize tournamentLines replayEmptySpot baseHeroes
        monsterBaseList friendly hostile,
      fun _ => rfl⟩⟩

/-- Witness for C9 at a concrete input. -/
theorem c9_witness :
    ((5 : Int) = 5 ∧
      makeBattleReplay 2 1 (-1) [] [] [exPanda] [exWolf] 5 =
        makeBattleReplay 2 1 (-1) [] [] [exPanda] [exWolf] 5) ∧
    ∃ p q : Str, ∀ t : Int,
      unencodedReplay 2 1 (-1) [] [] [exPanda] [exWolf] t =
        p ++ intToStr t ++ q :=
  ⟨⟨rfl, (c9_replay_deterministic 2 1 (-1) [] [] [exPanda] [exWolf] 5 5).1 rfl⟩,
    (c9_replay_deterministic 2 1 (-1) [] [] [exPanda] [exWolf] 5 5).2⟩

theorem parseHeroString_done (bh : List Monster) :
    parseHeroString? bh ['d', 'o', 'n', 'e'] = none := by
  have h1 : strFind ['d', 'o', 'n', 'e'] ":".data 0 = none := by decide
  have h2 : stoi? ['d', 'o', 'n', 'e'] = none := by decide
  simp [parseHeroString?, h1, h2]

/-- C6: in the hero-level collection loop an empty line increments the
blank counter, a non-empty line resets it to zero whether or not it parses
(a malformed spec adds no hero), and the loop terminates exactly on the
literal `"done"` or on the second consecutive blank; concretely,
`["hero1:1", "", ""]` returns one hero and `["hero1:1", "done"]` returns
one hero without blanks. -/
theorem c6_herolevel_loop (posA negA cd ts : Str) (bh : List Monster) :
    (∀ (f : Nat) (st : IOState) (reg : Registry) (hs : List Monster)
        (c : Nat) (input : Str) (st' : IOState),
        getResistantInput posA negA cd ts .rawFirst st = some (input, st') →
        ((input = [] → c = 0 →
            takeHeroLoop posA negA cd ts bh (f + 1) st reg hs c =
              takeHeroLoop posA negA cd ts bh f st' reg hs 1) ∧
          (input = [] → c = 1 →
            takeHeroLoop posA negA cd ts bh (f + 1) st reg hs c =
              some (hs, reg, st')) ∧
          (input ≠ [] → input ≠ "done".data →
            parseHeroString? bh input = none →
            takeHeroLoop posA negA cd ts bh (f + 1) st reg hs c =
              takeHeroLoop posA negA cd ts bh f st' reg hs 0) ∧
          (input ≠ [] → input ≠ "done".data →
            ∀ base lvl, parseHeroString? bh input = some (base, lvl) →
            takeHeroLoop posA negA cd ts bh (f + 1) st reg hs c =
              takeHeroLoop posA negA cd ts bh f st'
                (addLeveledHero reg base lvl).2
                (hs ++ [(addLeveledHero reg base lvl).1]) 0) ∧
          (input = "done".data →
            takeHeroLoop posA negA cd ts bh (f + 1) st reg hs c =
              some (hs, reg, st')))) ∧
    ((takeHerolevelInput "y".data "n".data "//".data " ".data [exHero1]
        ⟨false, [], ["hero1:1".data, [], []]⟩ []).map
          (fun r => r.1.length) = some 1 ∧
      (takeHerolevelInput "y".data "n".data "//".data " ".data [exHero1]
        ⟨false, [], ["hero1:1".data, "done".data]⟩ []).map
          (fun r => r.1.length) = some 1) := by
  constructor
  · intro f st reg hs c input st' hgri
    refine ⟨?_, ?_, ?_, ?_, ?_⟩
    · intro hin hc
      subst hin
      subst hc
      simp only [takeHeroLoop]
      rw [hgri]
      simp
    · intro hin hc
      subst hin
      subst hc
      simp only [takeHeroLoop]
      rw [hgri]
      simp
    · intro hne hnd hp
      simp only [takeHeroLoop]
      rw [hgri]
      simp [hne, hnd, hp]
    · intro hne hnd base lvl hp
      simp only [takeHeroLoop]
      rw [hgri]
      simp [hne, hnd, hp]
    · intro hin
      subst hin
      simp only [takeHeroLoop]
      rw [hgri]
      simp [parseHeroString_done]
  · exact ⟨by decide, by decide⟩

/-- Witness for C6's universally quantified part at a concrete input. -/
theorem c6_witness :
    getResistantInput "y".data "n".data "//".data " ".data .rawFirst
        ⟨false, [], ["done".data]⟩ = some ("done".data, ⟨false, [], []⟩) ∧
      takeHeroLoop "y".data "n".data "//".data " ".data [exHero1] 1
        ⟨false, [], ["done".data]⟩ [] [] 0 = some ([], [], ⟨false, [], []⟩) :=
  ⟨by decide,
    ((c6_herolevel_loop ("y".data) ("n".data) ("//".data) (" ".data)
          [exHero1]).1 0 ⟨false, [], ["done".data]⟩ [] [] 0 ("done".data)
        ⟨false, [], []⟩ (by decide)).2.2.2.2 (by decide)⟩

theorem parseInstances_tokens (armyMaxSize : Nat) (quests : List (List Str))
    (monsterMap : Str → Option Monster) (baseHeroes : List Monster) :
    ∀ (toks : List Str) (reg : Registry) (v : List Instance)
      (reg2 : Registry),
      parseInstances armyMaxSize quests monsterMap baseHeroes toks reg =
        some (v, reg2) →
      v.length = toks.length ∧
      ∀ i (hi : i < toks.length), ∃ r1 inst r2,
        makeInstanceFromString? armyMaxSize quests monsterMap baseHeroes
            (toks.get ⟨i, hi⟩) r1 = some (inst, r2) ∧
          v.getD i defaultInstance = inst := by
  intro toks
  induction toks with
  | nil =>
    intro reg v reg2 h
    simp only [parseInstances, Option.some.injEq, Prod.mk.injEq] at h
    obtain ⟨h1, -⟩ := h
    subst h1
    exact ⟨rfl, fun i hi => absurd hi (by simp)⟩
  | cons tk rest ih =>
    intro reg v reg2 h
    simp only [parseInstances] at h
    cases hm : makeInstanceFromString? armyMaxSize quests monsterMap
        baseHeroes tk reg with
    | none => rw [hm] at h; simp at h
    | some p =>
      obtain ⟨inst, reg'⟩ := p
      rw [hm] at h
      dsimp only at h
      cases hp : parseInstances armyMaxSize quests monsterMap baseHeroes
          rest reg' with
      | none => rw [hp] at h; simp at h
      | some p2 =>
        obtain ⟨v', reg''⟩ := p2
        rw [hp] at h
        dsimp only at h
        have hv : inst :: v' = v := congrArg Prod.fst (Option.some.inj h)
        subst hv
        obtain ⟨ihl, ihp⟩ := ih reg' v' reg'' hp
        refine ⟨by simp [ihl], ?_⟩
        intro i hi
        cases i with
        | zero => exact ⟨reg, inst, reg', by simpa using hm, rfl⟩
        | succ i' =>
          have hi' : i' < rest.length := by simpa using hi
          obtain ⟨r1, inst2, r2, hmk, hget⟩ := ihp i' hi'
          exact ⟨r1, inst2, r2, by simpa using hmk, by simpa using hget⟩

/-- C5: the multi-instance command returns a vector only when every
whitespace-separated token of an input line parses (the vector is exactly
the full parse of one line); a line with any failing token contributes
nothing — the loop simply re-prompts on the next line — and every returned
vector has one instance per token of the accepted line, each produced by a
successful parse of the corresponding token. -/
theorem c5_instances_all_or_nothing (posA negA cd ts : Str)
    (armyMaxSize : Nat) (quests : List (List Str))
    (monsterMap : Str → Option Monster) (baseHeroes : List Monster) :
    (∀ (f : Nat) (st : IOState) (reg : Registry) (v : List Instance)
        (reg' : Registry) (st'' : IOState),
        takeInstLoop posA negA cd ts armyMaxSize quests monsterMap baseHeroes
            f st reg = some (v, reg', st'') →
        ∃ input : Str,
          parseInstances armyMaxSize quests monsterMap baseHeroes
            (split input ts) reg = some (v, reg')) ∧
    (∀ (f : Nat) (st : IOState) (reg : Registry) (input : Str)
        (st' : IOState),
        getResistantInput posA negA cd ts .raw st = some (input, st') →
        parseInstances armyMaxSize quests monsterMap baseHeroes
            (split input ts) reg = none →
        takeInstLoop posA negA cd ts armyMaxSize quests monsterMap baseHeroes
            (f + 1) st reg =
          takeInstLoop posA negA cd ts armyMaxSize quests monsterMap
            baseHeroes f st' reg) ∧
    (∀ (toks : List Str) (reg : Registry) (v : List Instance)
        (reg2 : Registry),
        parseInstances armyMaxSize quests monsterMap baseHeroes toks reg =
          some (v, reg2) →
        v.length = toks.length ∧
        ∀ i (hi : i < toks.length), ∃ r1 inst r2,
          makeInstanceFromString? armyMaxSize quests monsterMap baseHeroes
              (toks.get ⟨i, hi⟩) r1 = some (inst, r2) ∧
            v.getD i defaultInstance = inst) := by
  refine ⟨?_, ?_, parseInstances_tokens armyMaxSize quests monsterMap baseHeroes⟩
  · intro f
    induction f with
    | zero =>
      intro st reg v reg' st'' h
      simp [takeInstLoop] at h
    | succ f ih =>
      intro st reg v reg' st'' h
      simp only [takeInstLoop] at h
      cases hg : getResistantInput posA negA cd ts .raw st with
      | none => rw [hg] at h; simp at h
      | some p =>
        obtain ⟨input, st1⟩ := p
        rw [hg] at h
        dsimp only at h
        cases hp : parseInstances armyMaxSize quests monsterMap baseHeroes
            (split input ts) reg with
        | none =>
          rw [hp] at h
          exact ih st1 reg v reg' st'' h
        | some p2 =>
          obtain ⟨v0, reg0⟩ := p2
          rw [hp] at h
          dsimp only at h
          have hv : v0 = v := congrArg Prod.fst (Option.some.inj h)
          have hr : reg0 = (v, reg', st'').2.1 :=
            congrArg (fun x => x.2.1) (Option.some.inj h)
          refine ⟨input, ?_⟩
          rw [hp, hv]
          dsimp only at hr
          rw [hr]
  · intro f st reg input st' hg hp
    simp only [takeInstLoop]
    rw [hg]
    dsimp only
    rw [hp]

/-- Witness for C5 at a concrete input: the line with the unknown token
`"bogus"` is rejected whole and the loop re-prompts. -/
theorem c5_witness :
    getResistantInput "y".data "n".data "//".data " ".data .raw
        ⟨false, [], ["bogus".data, "panda".data]⟩ =
      some ("bogus".data, ⟨false, [], ["panda".data]⟩) ∧
    parseInstances 6 exQuests exMonsterMap [exHero1]
        (split "bogus".data " ".data) [] = none ∧
    takeInstLoop "y".data "n".data "//".data " ".data 6 exQuests exMonsterMap
        [exHero1] 2 ⟨false, [], ["bogus".data, "panda".data]⟩ [] =
      takeInstLoop "y".data "n".data "//".data " ".data 6 exQuests
        exMonsterMap [exHero1] 1 ⟨false, [], ["panda".data]⟩ [] :=
  ⟨by decide, by decide,
    (c5_instances_all_or_nothing ("y".data) ("n".data) ("//".data) (" ".data)
        6 exQuests exMonsterMap [exHero1]).2.1 1
      ⟨false, [], ["bogus".data, "panda".data]⟩ [] ("bogus".data)
      ⟨false, [], ["panda".data]⟩ (by decide) (by decide)⟩

theorem find?_first_characterization (p : Monster → Bool) :
    ∀ l : List Monster,
      (l.find? p = none ∧ ∀ j (hj : j < l.length), p (l.get ⟨j, hj⟩) = false) ∨
      (∃ (j : Nat) (hj : j < l.length), l.find? p = some (l.get ⟨j, hj⟩) ∧
        p (l.get ⟨j, hj⟩) = true ∧
        ∀ k (hk : k < l.length), k < j → p (l.get ⟨k, hk⟩) = false) := by
  intro l
  induction l with
  | nil => exact Or.inl ⟨rfl, fun j hj => absurd hj (by simp)⟩
  | cons x xs ih =>
    cases hp : p x with
    | true =>
      right
      refine ⟨0, by simp, ?_, by simpa using hp, ?_⟩
      · rw [List.find?_cons_of_pos _ hp]
        simp
      · intro k hk hk0
        omega
    | false =>
      have hp' : ¬p x = true := by simp [hp]
      rcases ih with ⟨h1, h2⟩ | ⟨j, hj, h1, h2, h3⟩
      · left
        refine ⟨?_, ?_⟩
        · rw [List.find?_cons_of_neg _ hp']
          exact h1
        · intro j hj
          cases j with
          | zero => simpa using hp
          | succ j' =>
            have := h2 j' (by simpa using hj)
            simpa using this
      · right
        refine ⟨j + 1, by simpa using hj, ?_, by simpa using h2, ?_⟩
        · rw [List.find?_cons_of_neg _ hp', h1]
          simp
        · intro k hk hkj
          cases k with
          | zero => simpa using hp
          | succ k' =>
            have := h3 k' (by simpa using hk) (by omega)
            simpa using this

/-- C7: the hero-level field has exactly one entry per hero template, in
registry order; each entry is the level of the first army unit (in
insertion order) that is a hero with the matching base name, and `0` when
no such unit exists. -/
theorem c7_replay_hero_levels (baseHeroes : List Monster) (army : Army) :
    (getReplayHeroesList baseHeroes army).length = baseHeroes.length ∧
    ∀ i (hi : i < baseHeroes.length),
      (∃ (j : Nat) (hj : j < army.length),
        ((army.get ⟨j, hj⟩).rarity ≠ NO_HERO ∧
          (army.get ⟨j, hj⟩).baseName = (baseHeroes.get ⟨i, hi⟩).baseName) ∧
        (∀ k (hk : k < army.length), k < j →
          ¬((army.get ⟨k, hk⟩).rarity ≠ NO_HERO ∧
            (army.get ⟨k, hk⟩).baseName =
              (baseHeroes.get ⟨i, hi⟩).baseName)) ∧
        (getReplayHeroesList baseHeroes army).getD i 0 =
          (army.get ⟨j, hj⟩).level) ∨
      ((∀ j (hj : j < army.length),
          ¬((army.get ⟨j, hj⟩).rarity ≠ NO_HERO ∧
            (army.get ⟨j, hj⟩).baseName =
              (baseHeroes.get ⟨i, hi⟩).baseName)) ∧
        (getReplayHeroesList baseHeroes army).getD i 0 = 0) := by
  refine ⟨by simp [getReplayHeroesList], ?_⟩
  intro i hi
  have hentry : (getReplayHeroesList baseHeroes army).getD i 0 =
      (match army.find? (fun m => decide (m.rarity ≠ NO_HERO ∧
          m.baseName = (baseHeroes.get ⟨i, hi⟩).baseName)) with
        | some m => m.level
        | none => 0) := by
    have hlen : i < (getReplayHeroesList baseHeroes army).length := by
      simpa [getReplayHeroesList] using hi
    rw [List.getD_eq_getElem _ _ hlen]
    simp [getReplayHeroesList, List.get_eq_getElem]
  rcases find?_first_characterization
      (fun m => decide (m.rarity ≠ NO_HERO ∧
        m.baseName = (baseHeroes.get ⟨i, hi⟩).baseName)) army with
    ⟨h1, h2⟩ | ⟨j, hj, h1, h2, h3⟩
  · right
    refine ⟨?_, by rw [hentry, h1]⟩
    intro j hj
    have := h2 j hj
    simpa using this
  · left
    refine ⟨j, hj, by simpa using h2, ?_, by rw [hentry, h1]⟩
    intro k hk hkj
    have := h3 k hk hkj
    simpa using this

/-- Witness for C7 at a concrete input. -/
theorem c7_witness :
    (0 < ([exHero1] : List Monster).length) ∧
      ((∃ (j : Nat) (hj : j < ([exPanda, exHero1] : Army).length),
        ((([exPanda, exHero1] : Army).get ⟨j, hj⟩).rarity ≠ NO_HERO ∧
          (([exPanda, exHero1] : Army).get ⟨j, hj⟩).baseName =
            (([exHero1] : List Monster).get ⟨0, by decide⟩).baseName) ∧
        (∀ k (hk : k < ([exPanda, exHero1] : Army).length), k < j →
          ¬((([exPanda, exHero1] : Army).get ⟨k, hk⟩).rarity ≠ NO_HERO ∧
            (([exPanda, exHero1] : Army).get ⟨k, hk⟩).baseName =
              (([exHero1] : List Monster).get ⟨0, by decide⟩).baseName)) ∧
        (getReplayHeroesList [exHero1] [exPanda, exHero1]).getD 0 0 =
          (([exPanda, exHero1] : Army).get ⟨j, hj⟩).level) ∨
      ((∀ j (hj : j < ([exPanda, exHero1] : Army).length),
          ¬((([exPanda, exHero1] : Army).get ⟨j, hj⟩).rarity ≠ NO_HERO ∧
            (([exPanda, exHero1] : Army).get ⟨j, hj⟩).baseName =
              (([exHero1] : List Monster).get ⟨0, by decide⟩).baseName)) ∧
        (getReplayHeroesList [exHero1] [exPanda, exHero1]).getD 0 0 = 0)) :=
  ⟨by decide,
    (c7_replay_hero_levels [exHero1] [exPanda, exHero1]).2 0 (by decide)⟩

theorem toInt8_eq_self (n : Int) (h1 : -128 ≤ n) (h2 : n < 128) :
    toInt8 n = n := by
  unfold toInt8
  omega

theorem getD_map_range (f : Nat → Int) (n i : Nat) (d : Int) (hi : i < n) :
    ((List.range n).map f).getD i d = f i := by
  have hlen : i < ((List.range n).map f).length := by simpa using hi
  rw [List.getD_eq_getElem _ _ hlen]
  simp

theorem grmnScan_none (p : Monster → Bool) (enc : Nat → Int) :
    ∀ (l : List Monster) (i : Nat) (cur : Int),
      (∀ x ∈ l, p x = false) → grmnScan p enc l i cur = cur := by
  intro l
  induction l with
  | nil => intro i cur _; rfl
  | cons x xs ih =>
    intro i cur h
    have hx := h x (List.mem_cons_self x xs)
    simp only [grmnScan, hx]
    have := ih (i + 1) cur (fun y hy => h y (List.mem_cons_of_mem x hy))
    simpa using this

theorem grmnScan_unique (p : Monster → Bool) (enc : Nat → Int) :
    ∀ (l : List Monster) (j : Nat) (hj : j < l.length),
      p (l.get ⟨j, hj⟩) = true →
      (∀ k (hk : k < l.length), p (l.get ⟨k, hk⟩) = true → k = j) →
      ∀ (i : Nat) (cur : Int), grmnScan p enc l i cur = enc (i + j) := by
  intro l
  induction l with
  | nil => intro j hj; exact absurd hj (by simp)
  | cons x xs ih =>
    intro j hj hpj huniq i cur
    cases hpx : p x with
    | true =>
      have hj0 : j = 0 := (huniq 0 (by simp) (by simpa using hpx)).symm
      subst hj0
      simp only [grmnScan, hpx, if_true]
      rw [grmnScan_none p enc xs (i + 1) (enc i) ?_]
      · simp
      · intro y hy
        obtain ⟨⟨m, hm⟩, hy'⟩ := List.mem_iff_get.mp hy
        rw [← hy']
        cases hpy : p (xs.get ⟨m, hm⟩) with
        | false => rfl
        | true =>
          have := huniq (m + 1) (by simpa using hm) (by simpa using hpy)
          omega
    | false =>
      have hjne : j ≠ 0 := by
        intro h0
        subst h0
        have : p x = true := hpj
        rw [hpx] at this
        cases this
      obtain ⟨j', rfl⟩ : ∃ j', j = j' + 1 := ⟨j - 1, by omega⟩
      have hj' : j' < xs.length := by simpa using hj
      have huniq' : ∀ k (hk : k < xs.length), p (xs.get ⟨k, hk⟩) = true →
          k = j' := by
        intro k hk hpk
        have := huniq (k + 1) (by simpa using hk) (by simpa using hpk)
        omega
      have ihres := ih j' hj' (by simpa using hpj) huniq' (i + 1) cur
      simp only [grmnScan, hpx, if_false]
      have harith : i + 1 + j' = i + (j' + 1) := by omega
      rw [← harith]
      simpa using ihres

theorem findIdx_eq_of (p : Monster → Bool) :
    ∀ (l : List Monster) (j : Nat) (hj : j < l.length),
      p (l.get ⟨j, hj⟩) = true →
      (∀ k (hk : k < l.length), k < j → p (l.get ⟨k, hk⟩) = false) →
      l.findIdx p = j := by
  intro l
  induction l with
  | nil => intro j hj; exact absurd hj (by simp)
  | cons x xs ih =>
    intro j hj hpj hmin
    cases hpx : p x with
    | true =>
      cases j with
      | zero => simp [List.findIdx_cons, hpx]
      | succ j' =>
        have := hmin 0 (by simp) (by omega)
        rw [show (x :: xs).get ⟨0, by simp⟩ = x from rfl] at this
        rw [hpx] at this
        cases this
    | false =>
      cases j with
      | zero =>
        have : p x = true := hpj
        rw [hpx] at this
        cases this
      | succ j' =>
        have hj' : j' < xs.length := by simpa using hj
        have hpj' : p (xs.get ⟨j', hj'⟩) = true := by simpa using hpj
        have hmin' : ∀ k (hk : k < xs.length), k < j' →
            p (xs.get ⟨k, hk⟩) = false := by
          intro k hk hkj
          have := hmin (k + 1) (by simpa using hk) (by omega)
          simpa using this
        simp [List.findIdx_cons, hpx, ih j' hj' hpj' hmin']

theorem grmn_hero_eq (e : Int) (bh mbl : List Monster) (m : Monster)
    (hm : m.rarity ≠ NO_HERO) (j : Nat) (hj : j < bh.length)
    (hmatch : (bh.get ⟨j, hj⟩).baseName = m.baseName)
    (huniq : ∀ k (hk : k < bh.length),
      (bh.get ⟨k, hk⟩).baseName = m.baseName → k = j)
    (hlen : bh.length ≤ 126) :
    getReplayMonsterNumber e bh mbl m = -(j : Int) - 2 ∧
      bh.findIdx (fun x => decide (x.baseName = m.baseName)) = j := by
  have hjI : (j : Int) < 126 := by
    exact_mod_cast Nat.lt_of_lt_of_le hj hlen
  constructor
  · unfold getReplayMonsterNumber
    rw [if_pos hm]
    rw [grmnScan_unique _ _ bh j hj (by simpa using hmatch) ?_ 0 e]
    · simp only [Nat.zero_add]
      exact toInt8_eq_self _ (by omega) (by omega)
    · intro k hk hpk
      exact huniq k hk (by simpa using hpk)
  · apply findIdx_eq_of _ bh j hj (by simpa using hmatch)
    intro k hk hklt
    cases hpk : decide ((bh.get ⟨k, hk⟩).baseName = m.baseName) with
    | false => rfl
    | true =>
      have := huniq k hk (by simpa using hpk)
      omega

theorem grmn_monster_eq (e : Int) (bh mbl : List Monster) (m : Monster)
    (hm : m.rarity = NO_HERO) (j : Nat) (hj : j < mbl.length)
    (hmatch : (mbl.get ⟨j, hj⟩).name = m.name)
    (huniq : ∀ k (hk : k < mbl.length),
      (mbl.get ⟨k, hk⟩).name = m.name → k = j)
    (hlen : mbl.length ≤ 128) :
    getReplayMonsterNumber e bh mbl m = (j : Int) ∧
      mbl.findIdx (fun x => decide (x.name = m.name)) = j := by
  have hjI : (j : Int) < 128 := by
    exact_mod_cast Nat.lt_of_lt_of_le hj hlen
  constructor
  · unfold getReplayMonsterNumber
    rw [if_neg (by simp [hm])]
    rw [grmnScan_unique _ _ mbl j hj (by simpa using hmatch) ?_ 0 e]
    · simp only [Nat.zero_add]
      exact toInt8_eq_self _ (by omega) (by omega)
    · intro k hk hpk
      exact huniq k hk (by simpa using hpk)
  · apply findIdx_eq_of _ mbl j hj (by simpa using hmatch)
    intro k hk hklt
    cases hpk : decide ((mbl.get ⟨k, hk⟩).name = m.name) with
    | false => rfl
    | true =>
      have := huniq k hk (by simpa using hpk)
      omega

/-- C3: the replay setup field has exactly
`ARMY_MAX_SIZE * TOURNAMENT_LINES` entries; slot `i` carries, when
`i mod ARMY_MAX_SIZE` is below the unit count, the encoding of the
reversed-order unit at `unitCount - (i mod ARMY_MAX_SIZE) - 1` — a
non-negative position in the canonical monster list for ordinary units,
`-(heroRegistryIndex + 2)` for heroes, matched by base name regardless of
level — and the empty-slot sentinel otherwise.  (The registry and monster
list are assumed small enough that the source's `int8_t` casts do not
wrap, and to have distinct base names / names so that "the" index is
well-defined.) -/
theorem c3_replay_setup_slots (armyMaxSize tournamentLines : Nat) (e : Int)
    (bh mbl : List Monster) (army : Army)
    (hbhLen : bh.length ≤ 126) (hmblLen : mbl.length ≤ 128)
    (hbhInj : ∀ j k (hj : j < bh.length) (hk : k < bh.length),
      (bh.get ⟨j, hj⟩).baseName = (bh.get ⟨k, hk⟩).baseName → j = k)
    (hmblInj : ∀ j k (hj : j < mbl.length) (hk : k < mbl.length),
      (mbl.get ⟨j, hj⟩).name = (mbl.get ⟨k, hk⟩).name → j = k)
    (hunits : ∀ m ∈ army,
      (m.rarity ≠ NO_HERO → ∃ (j : Nat) (hj : j < bh.length),
        (bh.get ⟨j, hj⟩).baseName = m.baseName) ∧
      (m.rarity = NO_HERO → ∃ (j : Nat) (hj : j < mbl.length),
        (mbl.get ⟨j, hj⟩).name = m.name)) :
    (getReplaySetupList armyMaxSize tournamentLines e bh mbl army).length =
        armyMaxSize * tournamentLines ∧
    ∀ i (hi : i < armyMaxSize * tournamentLines),
      (getReplaySetupList armyMaxSize tournamentLines e bh mbl army).getD i e =
        if i % armyMaxSize < army.length then
          (if (army.getD (army.length - i % armyMaxSize - 1)
              defaultMonster).rarity ≠ NO_HERO then
            -((bh.findIdx (fun x => decide (x.baseName =
              (army.getD (army.length - i % armyMaxSize - 1)
                defaultMonster).baseName)) : Int)) - 2
          else
            (mbl.findIdx (fun x => decide (x.name =
              (army.getD (army.length - i % armyMaxSize - 1)
                defaultMonster).name)) : Int))
        else e := by
  refine ⟨by simp [getReplaySetupList], ?_⟩
  intro i hi
  have hmap : (getReplaySetupList armyMaxSize tournamentLines e bh mbl
      army).getD i e =
      (if i % armyMaxSize < army.length then
        getReplayMonsterNumber e bh mbl
          (army.getD (army.length - i % armyMaxSize - 1) defaultMonster)
      else e) :=
    getD_map_range _ _ _ _ hi
  rw [hmap]
  by_cases hcase : i % armyMaxSize < army.length
  · rw [if_pos hcase]
    have hidx : army.length - i % armyMaxSize - 1 < army.length := by omega
    have humem : army.getD (army.length - i % armyMaxSize - 1)
        defaultMonster ∈ army := by
      rw [List.getD_eq_getElem _ _ hidx]
      exact List.getElem_mem hidx
    by_cases hhero : (army.getD (army.length - i % armyMaxSize - 1)
        defaultMonster).rarity ≠ NO_HERO
    · rw [if_pos hhero]
      obtain ⟨j, hj, hmatch⟩ := (hunits _ humem).1 hhero
      have huniq : ∀ k (hk : k < bh.length),
          (bh.get ⟨k, hk⟩).baseName =
            (army.getD (army.length - i % armyMaxSize - 1)
              defaultMonster).baseName → k = j := by
        intro k hk hkm
        exact hbhInj k j hk hj (by rw [hkm, hmatch])
      obtain ⟨he, hfi⟩ := grmn_hero_eq e bh mbl _ hhero j hj hmatch huniq hbhLen
      rw [he, hfi]
      rw [if_pos hcase]
    · rw [if_neg hhero]
      obtain ⟨j, hj, hmatch⟩ := (hunits _ humem).2 (not_not.mp hhero)
      have huniq : ∀ k (hk : k < mbl.length),
          (mbl.get ⟨k, hk⟩).name =
            (army.getD (army.length - i % armyMaxSize - 1)
              defaultMonster).name → k = j := by
        intro k hk hkm
        exact hmblInj k j hk hj (by rw [hkm, hmatch])
      obtain ⟨he, hfi⟩ := grmn_monster_eq e bh mbl _ (not_not.mp hhero) j hj
        hmatch huniq hmblLen
      rw [he, hfi]
      rw [if_pos hcase]
  · rw [if_neg hcase, if_neg hcase]

/-- Witness for C3 at a concrete input. -/
theorem c3_witness :
    (getReplaySetupList 2 1 (-1) [exHero1] [exPanda, exWolf]
        [exWolf]).length = 2 * 1 ∧
    ∀ i (hi : i < 2 * 1),
      (getReplaySetupList 2 1 (-1) [exHero1] [exPanda, exWolf]
          [exWolf]).getD i (-1) =
        if i % 2 < ([exWolf] : Army).length then
          (if (([exWolf] : Army).getD (([exWolf] : Army).length - i % 2 - 1)
              defaultMonster).rarity ≠ NO_HERO then
            -((([exHero1] : List Monster).findIdx (fun x =>
              decide (x.baseName =
                (([exWolf] : Army).getD
                  (([exWolf] : Army).length - i % 2 - 1)
                  defaultMonster).baseName)) : Int)) - 2
          else
            (([exPanda, exWolf] : List Monster).findIdx (fun x =>
              decide (x.name =
                (([exWolf] : Army).getD
                  (([exWolf] : Army).length - i % 2 - 1)
                  defaultMonster).name)) : Int))
        else -1 :=
  c3_replay_setup_slots 2 1 (-1) [exHero1] [exPanda, exWolf] [exWolf]
    (by decide) (by decide)
    (fun j k hj hk _ => by simp at hj hk; omega)
    (fun j k hj hk h => by
      have hj2 : j < 2 := by simpa using hj
      have hk2 : k < 2 := by simpa using hk
      interval_cases j <;> interval_cases k <;>
        first
          | rfl
          | exact absurd (show exPanda.name = exWolf.name from h) (by decide)
          | exact absurd (show exWolf.name = exPanda.name from h) (by decide))
    (fun m hm => by
      have hm' : m = exWolf := by simpa using hm
      subst hm'
      exact ⟨fun hr => absurd rfl hr, fun _ => ⟨1, by decide, by decide⟩⟩)

theorem singleton_isPrefixOf_cons (c b : Char) (bs : Str) :
    [c].isPrefixOf (b :: bs) = (c == b) := by
  simp [List.isPrefixOf]

theorem strFindGo_found (t sep : Str) :
    ∀ (rem i j : Nat), j < rem →
      sep.isPrefixOf (t.drop (i + j)) = true →
      (∀ j', j' < j → sep.isPrefixOf (t.drop (i + j')) = false) →
      strFindGo t sep i rem = some (i + j) := by
  intro rem
  induction rem with
  | zero => intro i j hj _ _; exact absurd hj (by omega)
  | succ r ih =>
    intro i j hj hpre hmin
    simp only [strFindGo]
    by_cases h0 : sep.isPrefixOf (t.drop i) = true
    · rw [if_pos h0]
      cases j with
      | zero => simp
      | succ j' =>
        have hfalse := hmin 0 (by omega)
        rw [Nat.add_zero] at hfalse
        rw [h0] at hfalse
        cases hfalse
    · rw [if_neg h0]
      cases j with
      | zero =>
        rw [Nat.add_zero] at hpre
        exact absurd hpre h0
      | succ j' =>
        have harith : i + 1 + j' = i + (j' + 1) := by omega
        have hres := ih (i + 1) j' (by omega)
          (by rw [harith]; exact hpre)
          (fun j'' hj'' => by
            rw [show i + 1 + j'' = i + (j'' + 1) from by omega]
            exact hmin (j'' + 1) (by omega))
        rw [← harith]
        exact hres

theorem strFind_eq_some (t sep : Str) (start k : Nat)
    (hstart : start ≤ k) (hk : k ≤ t.length)
    (hpre : sep.isPrefixOf (t.drop k) = true)
    (hmin : ∀ j, start ≤ j → j < k →
      sep.isPrefixOf (t.drop j) = false) :
    strFind t sep start = some k := by
  unfold strFind
  have hres := strFindGo_found t sep (t.length + 1 - start) start (k - start)
    (by omega)
    (by rw [show start + (k - start) = k from by omega]; exact hpre)
    (fun j' hj' => hmin (start + j') (by omega) (by omega))
  rw [show start + (k - start) = k from by omega] at hres
  exact hres

theorem c2_quest_dash_find (qd : Str) (td : Char)
    (hqd : ∀ c ∈ qd, c ≠ '-') :
    strFind ('q' :: qd ++ '-' :: [td]) "-".data 0 = some (1 + qd.length) := by
  apply strFind_eq_some
  · omega
  · simp
    omega
  · have hdropk : ('q' :: qd ++ '-' :: [td]).drop (1 + qd.length) =
        '-' :: [td] := by
      rw [show (('q' :: qd ++ '-' :: [td]) : Str) =
        'q' :: (qd ++ '-' :: [td]) from rfl]
      rw [show 1 + qd.length = qd.length + 1 from by omega]
      rw [List.drop_succ_cons]
      exact List.drop_left qd ('-' :: [td])
    rw [hdropk]
    show ['-'].isPrefixOf ('-' :: [td]) = true
    rw [singleton_isPrefixOf_cons]
    simp
  · intro j _ hj
    cases j with
    | zero =>
      show ['-'].isPrefixOf ('q' :: (qd ++ '-' :: [td])) = false
      rw [singleton_isPrefixOf_cons]
      decide
    | succ j' =>
      have hj' : j' < qd.length := by omega
      show ['-'].isPrefixOf (('q' :: (qd ++ '-' :: [td])).drop (j' + 1)) = false
      rw [List.drop_succ_cons]
      rw [List.drop_append_of_le_length (by omega)]
      rw [List.drop_eq_getElem_cons hj']
      rw [List.cons_append, singleton_isPrefixOf_cons]
      have hmem : qd[j'] ∈ qd := List.getElem_mem hj'
      have hne := hqd _ hmem
      cases hbe : ('-' == qd[j']) with
      | false => rfl
      | true => exact absurd (eq_of_beq hbe).symm hne

/-- C2 (amended): for a quest token `Q<questNumber>-<tier>`, the code reads
exactly one character after the dash as the tier, so for a single-digit
tier `d` (with `stoi` value `t`) the resulting instance has
`maxCombatants = ARMY_MAX_SIZE - (t - 1)` and
`targetSize` equal to the unit count of the army resolved from the quest
database entry; for a multi-digit tier only the first digit is used, so
the stated formula holds exactly for tiers 1 through 9. -/
theorem c2_quest_instance (armyMaxSize : Nat) (quests : List (List Str))
    (monsterMap : Str → Option Monster) (baseHeroes : List Monster)
    (reg reg' : Registry) (qd : Str) (td : Char) (n t : Int) (army : Army)
    (hqd : ∀ c ∈ qd, c ≠ '-')
    (hn : stoi? qd = some n) (hn0 : 0 ≤ n)
    (hnq : n.toNat < quests.length)
    (ht : stoi? [td] = some t)
    (harmy : makeArmyFromStrings monsterMap baseHeroes
      (quests.get ⟨n.toNat, hnq⟩) reg = some (army, reg')) :
    makeInstanceFromString? armyMaxSize quests monsterMap baseHeroes
        ('q' :: qd ++ '-' :: [td]) reg =
      some ({ target := army,
              maxCombatants := (armyMaxSize : Int) - (t - 1),
              targetSize := army.length }, reg') := by
  have hfind : strFind ('q' :: qd ++ '-' :: [td]) "-".data 0 =
      some (1 + qd.length) := c2_quest_dash_find qd td hqd
  have hprefix : "q".data.isPrefixOf ('q' :: qd ++ '-' :: [td]) = true := by
    show ['q'].isPrefixOf ('q' :: (qd ++ '-' :: [td])) = true
    rw [singleton_isPrefixOf_cons]
    simp
  have hq1 : ((('q' :: qd ++ '-' :: [td]) : Str).drop 1).take
      (1 + qd.length - 1) = qd := by
    rw [show ((('q' :: qd ++ '-' :: [td]) : Str).drop 1) =
      qd ++ '-' :: [td] from rfl]
    rw [show 1 + qd.length - 1 = qd.length from by omega]
    exact List.take_left qd _
  have ht1 : ((('q' :: qd ++ '-' :: [td]) : Str).drop (1 + qd.length + 1)).take
      1 = [td] := by
    rw [show (('q' :: qd ++ '-' :: [td]) : Str) =
      ('q' :: qd ++ ['-']) ++ [td] from by simp]
    rw [show 1 + qd.length + 1 = ('q' :: qd ++ ['-'] : Str).length from by
      simp; omega]
    rw [List.drop_left]
    rfl
  simp only [makeInstanceFromString?, hfind, hprefix, if_true, hq1, hn]
  rw [dif_pos ⟨hn0, hnq⟩]
  rw [harmy]
  simp only [ht1, ht]

/-- Counterexample to C2 as stated: the token `"q3-10"` (tier 10, a
positive integer) against a quest database with quest 3 = `["panda",
"wolf"]` yields `maxCombatants = 6` with `ARMY_MAX_SIZE = 6` — the code
read only the tier's first character — while the claim's formula demands
`6 - (10 - 1) = -3`. -/
theorem c2_counterexample :
    (makeInstanceFromString? 6 exQuests exMonsterMap [exHero1]
        "q3-10".data []).map (fun r => r.1.maxCombatants) = some 6 ∧
      (6 : Int) ≠ (6 : Int) - ((10 : Int) - 1) := by
  decide

/-- Witness for the amended C2 at the claim's own concrete example:
parsing `"q3-2"` against a database where quest 3 = `["panda","wolf"]`
yields `targetSize = 2` and `maxCombatants = 6 - 1`. -/
theorem c2_witness :
    makeInstanceFromString? 6 exQuests exMonsterMap [exHero1]
        ('q' :: ['3'] ++ '-' :: ['2']) [] =
      some ({ target := [exPanda, exWolf],
              maxCombatants := (6 : Int) - ((2 : Int) - 1),
              targetSize := ([exPanda, exWolf] : Army).length }, []) :=
  c2_quest_instance 6 exQuests exMonsterMap [exHero1] [] [] ['3'] '2' 3 2
    [exPanda, exWolf] (by decide) (by decide) (by decide) (by decide)
    (by decide) (by decide)

end HeroCalc
